import Mathlib

set_option maxRecDepth 40000

/- Verification of the long-gate API gateway core against its
specification.  Shallow embedding of the Go source: the entities of
internal/config/upstream.go, the route predicates and validation of
internal/router/route.go, the snapshot router (Router.LoadRoutes,
Router.AddRoute, Router.DeleteRoute, Router.Match, Router.GetRoute,
Router.ListRoutes), the five load balancers, the health-checker
hysteresis step updateTargetStatus, and the reverse-proxy Director of
cmd/server/main.go.

Modelling conventions:
- Go machine integers are Int or Nat; where overflow matters (the
  round-robin uint32 counter) the reduction modulo 2 ^ 32 is explicit,
  and Go % on signed integers is Int.tmod (truncated remainder).
- Go maps are association lists with insert-replace (mapInsert) and
  first-hit lookup (mapLookup).
- A compiled Go regular expression is modelled by its matching function
  String → Bool; regexp.Compile is an abstract parameter
  compile : String → Option (String → Bool), none meaning a compile
  error.
- sort.Slice is documented by Go as NOT guaranteed to be stable; it is
  modelled as a parameter sortFn constrained by its contract
  SortContract: the output is a permutation of the input, sorted by the
  supplied comparison (priority descending).
- Time stamps (LastCheckAt, LastFailAt, CreateTime, UpdateTime), the
  Metadata map and probe I/O are outside the shallow embedding; none of
  the verified properties reads them. -/

namespace LongGate

/- Target mirrors config.Target.  Status is a Go string ("healthy",
"unhealthy", "unknown"); FailCount and ActiveConns are runtime fields. -/
structure Target where
  address : String
  weight : Int
  status : String
  failCount : Int
  activeConns : Int
  deriving DecidableEq, Repr

def targetStatusHealthy : String := "healthy"

def targetStatusUnhealthy : String := "unhealthy"

def targetStatusUnknown : String := "unknown"

/- HealthCheck mirrors config.HealthCheck. -/
structure HealthCheck where
  enabled : Bool
  type : String
  path : String
  interval : Int
  timeout : Int
  healthyThreshold : Int
  unhealthyThreshold : Int
  deriving DecidableEq, Repr

/- Upstream mirrors config.Upstream (Type is the load-balance policy
tag; the mutex only serialises the in-place target mutations). -/
structure Upstream where
  id : String
  name : String
  lbType : String
  targets : List Target
  healthCheck : Option HealthCheck
  timeout : Int
  retries : Int
  deriving DecidableEq, Repr

/- Upstream.GetHealthyTargets keeps exactly the targets whose status is
healthy (internal/config/upstream.go). -/
def Upstream.getHealthyTargets (u : Upstream) : List Target :=
  u.targets.filter (fun t => t.status == targetStatusHealthy)

/- Upstream.IncrementActiveConns bumps the first target with the given
address; the Go loop returns after the first hit. -/
def incrementActiveConns : List Target → String → List Target
  | [], _ => []
  | t :: ts, addr =>
    if t.address == addr then
      { t with activeConns := t.activeConns + 1 } :: ts
    else
      t :: incrementActiveConns ts addr

/- Upstream.DecrementActiveConns decrements the first target with the
given address whose counter is positive; the ActiveConns > 0 guard in
the loop condition keeps the counter from going below zero. -/
def decrementActiveConns : List Target → String → List Target
  | [], _ => []
  | t :: ts, addr =>
    if t.address == addr && decide (0 < t.activeConns) then
      { t with activeConns := t.activeConns - 1 } :: ts
    else
      t :: decrementActiveConns ts addr

/- HealthChecker.updateTargetStatus
(internal/upstream/health_checker.go) applied to one probed target.
The Go code resets FailCount to 0 on success BEFORE comparing it with
-HealthyThreshold; Upstream.UpdateTargetStatus (the status write keyed
by address) collapses to the in-place status update of this target. -/
def updateTargetStatus (hc : HealthCheck) (t : Target) (healthy : Bool) : Target :=
  if healthy then
    let t1 := { t with failCount := 0 }
    if t1.status ≠ targetStatusHealthy then
      if t1.failCount ≤ -hc.healthyThreshold then
        { t1 with status := targetStatusHealthy }
      else
        { t1 with failCount := t1.failCount - 1 }
    else
      t1
  else
    let t1 := { t with failCount := t.failCount + 1 }
    if t1.status ≠ targetStatusUnhealthy then
      if hc.unhealthyThreshold ≤ t1.failCount then
        { t1 with status := targetStatusUnhealthy }
      else
        t1
    else
      t1

/- A run of probe outcomes fed one by one to updateTargetStatus. -/
def applyProbes (hc : HealthCheck) (t : Target) : List Bool → Target
  | [] => t
  | b :: bs => applyProbes hc (updateTargetStatus hc t b) bs

/- The error value balancer.ErrNoHealthyTarget. -/
def errNoHealthyTarget : String := "no healthy target available"

/- RoundRobinBalancer.Select: pre-increment the uint32 counter (the
atomic.AddUint32 overflow is the mod 2 ^ 32) and index the healthy list
by counter mod length. -/
def roundRobinSelect (u : Upstream) (current : Nat) : Nat × Except String Target :=
  match u.getHealthyTargets with
  | [] => (current, .error errNoHealthyTarget)
  | t :: ts =>
    let newCur := (current + 1) % 2 ^ 32
    (newCur, .ok ((t :: ts).get ⟨newCur % (t :: ts).length, Nat.mod_lt _ (Nat.succ_pos ts.length)⟩))

/- The scan of WeightedBalancer.Select: running cumulative weight,
first target whose cumulative weight exceeds the stepped counter. -/
def weightedScan (cur : Int) (sum : Int) : List Target → Option Target
  | [] => none
  | t :: ts =>
    let sum1 := sum + t.weight
    if cur < sum1 then some t else weightedScan cur sum1 ts

/- WeightedBalancer.Select: pre-increment current modulo the total
weight (Go % on int is Int.tmod; Go panics when the total weight is
zero, so the verified statements assume validated weights, which are at
least 1), then scan; the final targets[0] fall-back of the Go code is
the getD default. -/
def weightedSelect (u : Upstream) (current : Int) : Int × Except String Target :=
  match u.getHealthyTargets with
  | [] => (current, .error errNoHealthyTarget)
  | t :: ts =>
    let totalWeight := ((t :: ts).map Target.weight).sum
    let cur := (current + 1).tmod totalWeight
    (cur, .ok ((weightedScan cur 0 (t :: ts)).getD t))

/- The loop of LeastConnBalancer.Select: minimum ActiveConns,
first-wins tie-break. -/
def leastConnLoop (minConns : Int) (selected : Target) : List Target → Target
  | [] => selected
  | t :: ts =>
    if t.activeConns < minConns then leastConnLoop t.activeConns t ts
    else leastConnLoop minConns selected ts

def leastConnSelect (u : Upstream) : Except String Target :=
  match u.getHealthyTargets with
  | [] => .error errNoHealthyTarget
  | t :: ts => .ok (leastConnLoop t.activeConns t ts)

/- CRC32 with the reflected IEEE polynomial 0xEDB88320 over the UTF-8
bytes, as computed by Go hash/crc32.ChecksumIEEE. -/
def crc32Step (crc : Nat) : Nat :=
  if crc % 2 = 1 then (crc / 2) ^^^ 0xEDB88320 else crc / 2

def crc32Byte (crc : Nat) (b : Nat) : Nat :=
  crc32Step^[8] (crc ^^^ b)

/- UTF-8 bytes of a character; Go strings are UTF-8 and the conversion
[]byte(s) yields exactly these bytes. -/
def charUTF8 (c : Char) : List Nat :=
  let n := c.toNat
  if n < 0x80 then [n]
  else if n < 0x800 then [0xC0 ||| (n / 64), 0x80 ||| (n % 64)]
  else if n < 0x10000 then
    [0xE0 ||| (n / 4096), 0x80 ||| (n / 64 % 64), 0x80 ||| (n % 64)]
  else
    [0xF0 ||| (n / 262144), 0x80 ||| (n / 4096 % 64), 0x80 ||| (n / 64 % 64),
      0x80 ||| (n % 64)]

def utf8Bytes (s : String) : List Nat :=
  s.data.foldr (fun c acc => charUTF8 c ++ acc) []

def crc32 (s : String) : Nat :=
  0xFFFFFFFF ^^^ ((utf8Bytes s).foldl crc32Byte 0xFFFFFFFF)

/- IPHashBalancer.Select: healthy[crc32(clientIP) mod len]; the Go
int(hash) conversion is value-preserving on 64-bit platforms. -/
def ipHashSelect (u : Upstream) (clientIP : String) : Except String Target :=
  match u.getHealthyTargets with
  | [] => .error errNoHealthyTarget
  | t :: ts =>
    .ok ((t :: ts).get ⟨crc32 clientIP % (t :: ts).length, Nat.mod_lt _ (Nat.succ_pos ts.length)⟩)

/- RandomBalancer.Select with the value produced by rand.Intn(len)
passed in as k; rand.Intn always yields k < len, and the getD default
is never used under that bound. -/
def randomSelect (u : Upstream) (k : Nat) : Except String Target :=
  match u.getHealthyTargets with
  | [] => .error errNoHealthyTarget
  | t :: ts => .ok ((t :: ts).getD k t)

/- strings.HasPrefix over the character list (Go compares the UTF-8
bytes; prefix over code points is equivalent for valid UTF-8). -/
def goHasPrefix (s pre : String) : Bool :=
  pre.data.isPrefixOf s.data

/- strings.ToUpper restricted to its ASCII mapping (every string the
gateway compares with the method table is ASCII). -/
def goToUpper (s : String) : String :=
  String.mk (s.data.map Char.toUpper)

/- strings.Split with a one-character separator. -/
def splitOnCharAux (c : Char) : List Char → List Char → List String
  | [], acc => [String.mk acc.reverse]
  | x :: xs, acc =>
    if x == c then String.mk acc.reverse :: splitOnCharAux c xs []
    else splitOnCharAux c xs (x :: acc)

def splitOnChar (c : Char) (s : String) : List String :=
  splitOnCharAux c s.data []

/- RoutePredicates mirrors router.RoutePredicates; PathRegex stores the
matching function of the compiled regex (the json:"-" field). -/
structure RoutePredicates where
  path : String
  pathType : String
  pathRegex : Option (String → Bool)
  methods : List String
  headers : List (String × String)
  hosts : List String
  queryParams : List (String × String)

/- Route mirrors router.Route; Status is the Go int (enabled = 1). -/
structure Route where
  id : String
  name : String
  priority : Int
  status : Int
  predicates : Option RoutePredicates
  upstreamID : String
  version : Int

def routeStatusEnabled : Int := 1

/- Route.matchPath: switch on PathType with "exact" and "regex" cases;
every other value (including the empty default) falls through to the
HasPrefix test. -/
def matchPath (p : RoutePredicates) (path : String) : Bool :=
  if p.pathType == "exact" then path == p.path
  else if p.pathType == "regex" then
    match p.pathRegex with
    | none => false
    | some rx => rx path
  else goHasPrefix path p.path

/- Route.matchMethod: an empty list matches any method; otherwise both
sides are uppercased before comparison. -/
def matchMethod (p : RoutePredicates) (method : String) : Bool :=
  if p.methods.isEmpty then true
  else p.methods.any (fun m => goToUpper m == goToUpper method)

/- Route.matchHost: an empty list matches any host; a literal entry or
the wildcard entry matches. -/
def matchHost (p : RoutePredicates) (host : String) : Bool :=
  if p.hosts.isEmpty then true
  else p.hosts.any (fun h => h == host || h == "*")

/- First-hit lookup in a header map (router.extractHeaders keeps the
first value of each header, so the request side is a plain map). -/
def lookupHeader : List (String × String) → String → Option String
  | [], _ => none
  | (k, v) :: rest, key => if k == key then some v else lookupHeader rest key

/- Route.matchHeaders: every required header must be present with the
exact value. -/
def matchHeaders (p : RoutePredicates) (headers : List (String × String)) : Bool :=
  p.headers.all (fun kv =>
    match lookupHeader headers kv.1 with
    | none => false
    | some v => v == kv.2)

/- Route.Match: a disabled route never matches; then path, method, host
and header predicates must all hold.  A nil Predicates pointer cannot
occur in a published table (Validate rejects it); the none branch keeps
the function total. -/
def Route.matches (r : Route) (path method host : String)
    (headers : List (String × String)) : Bool :=
  if r.status != routeStatusEnabled then false
  else
    match r.predicates with
    | none => false
    | some p =>
      matchPath p path && matchMethod p method && matchHost p host &&
        matchHeaders p headers

def validHTTPMethod (m : String) : Bool :=
  m == "GET" || m == "POST" || m == "PUT" || m == "DELETE" ||
    m == "PATCH" || m == "HEAD" || m == "OPTIONS"

/- Route.Validate.  compile stands for regexp.Compile (none = compile
error).  The Go loop uppercases only its LOOP VARIABLE while checking
methods, so the stored Predicates.Methods keep their original case; on
success the compiled regex is stored back into the route. -/
def Route.Validate (compile : String → Option (String → Bool)) (r : Route) :
    Except String Route :=
  if r.id == "" then .error "route id cannot be empty"
  else
    match r.predicates with
    | none => .error "route predicates cannot be nil"
    | some p =>
      if p.path == "" then .error "route path cannot be empty"
      else if r.upstreamID == "" then .error "upstream id cannot be empty"
      else
        let compiled : Except String RoutePredicates :=
          if p.pathType == "regex" then
            match compile p.path with
            | none => .error "invalid path regex"
            | some rx => .ok { p with pathRegex := some rx }
          else .ok p
        match compiled with
        | .error e => .error e
        | .ok p1 =>
          if p1.methods.all (fun m => validHTTPMethod (goToUpper m)) then
            .ok { r with predicates := some p1 }
          else .error "invalid http method"

/- strings.Trim(s, "/"). -/
def trimSlashes (s : String) : String :=
  String.mk (((s.toList.dropWhile (fun c => c == '/')).reverse.dropWhile
    (fun c => c == '/')).reverse)

/- router.extractPathParams: segment-wise capture of :name parameters
when the segment counts agree. -/
def extractPathParams (pattern path : String) : List (String × String) :=
  let patternParts := splitOnChar '/' (trimSlashes pattern)
  let pathParts := splitOnChar '/' (trimSlashes path)
  if patternParts.length != pathParts.length then []
  else
    (patternParts.zip pathParts).foldl
      (fun acc pp =>
        if goHasPrefix pp.1 ":" then acc ++ [(String.mk (pp.1.data.drop 1), pp.2)]
        else acc) []

/- RouteTable: the immutable snapshot of routes plus the id index. -/
structure RouteTable where
  routes : List Route
  indexMap : List (String × Route)

/- Go map assignment m[k] = v: replace the binding if the key is
present, otherwise add it. -/
def mapInsert : List (String × Route) → String → Route → List (String × Route)
  | [], k, v => [(k, v)]
  | (k1, v1) :: rest, k, v =>
    if k1 == k then (k, v) :: rest else (k1, v1) :: mapInsert rest k v

/- Go map read m[k]. -/
def mapLookup : List (String × Route) → String → Option Route
  | [], _ => none
  | (k1, v1) :: rest, k => if k1 == k then some v1 else mapLookup rest k

/- The indexMap loop of the router: insert every route keyed by id. -/
def buildIndex (routes : List Route) : List (String × Route) :=
  routes.foldl (fun m r => mapInsert m r.id r) []

def mkTable (routes : List Route) : RouteTable :=
  { routes := routes, indexMap := buildIndex routes }

/- Router.LoadRoutes: validate (skipping invalid entries), sort by
priority descending with sort.Slice (modelled by sortFn), build the
index, publish. -/
def loadRoutes (sortFn : List Route → List Route)
    (compile : String → Option (String → Bool)) (routes : List Route) : RouteTable :=
  let validRoutes := routes.filterMap (fun r =>
    match r.Validate compile with
    | .ok r1 => some r1
    | .error _ => none)
  mkTable (sortFn validRoutes)

/- The AddRoute copy loop: replace every entry with the same id, keep
the rest, and report whether a replacement happened. -/
def replaceOrKeep (route : Route) : List Route → List Route × Bool
  | [] => ([], false)
  | existing :: rest =>
    let tail := replaceOrKeep route rest
    if existing.id == route.id then (route :: tail.1, true)
    else (existing :: tail.1, tail.2)

/- Router.AddRoute: validate (the error path publishes nothing),
replace-or-append by id, re-sort with sort.Slice, rebuild the index,
publish the new snapshot. -/
def addRoute (sortFn : List Route → List Route)
    (compile : String → Option (String → Bool))
    (tbl : RouteTable) (route : Route) : Except String RouteTable :=
  match route.Validate compile with
  | .error e => .error e
  | .ok r1 =>
    let rep := replaceOrKeep r1 tbl.routes
    let newRoutes := if rep.2 then rep.1 else rep.1 ++ [r1]
    .ok (mkTable (sortFn newRoutes))

/- The router state after AddRoute: on a validation error the stored
table pointer is never written, so the published snapshot is the old
one. -/
def addRouteState (sortFn : List Route → List Route)
    (compile : String → Option (String → Bool))
    (tbl : RouteTable) (route : Route) : RouteTable :=
  match addRoute sortFn compile tbl route with
  | .ok t1 => t1
  | .error _ => tbl

/- Router.DeleteRoute: keep every route with a different id, rebuild
the index, publish; the Go function always returns nil. -/
def deleteRoute (tbl : RouteTable) (routeID : String) : RouteTable :=
  mkTable (tbl.routes.filter (fun r => r.id != routeID))

/- Router.GetRoute reads the id index of the current snapshot. -/
def getRoute (tbl : RouteTable) (id : String) : Option Route :=
  mapLookup tbl.indexMap id

/- Router.ListRoutes returns a copy of the snapshot list. -/
def listRoutes (tbl : RouteTable) : List Route :=
  tbl.routes

/- Router.Match over the published table: the first route in table
order whose predicates match wins; path parameters are extracted from
its path pattern. -/
def matchReq (tbl : RouteTable) (path method host : String)
    (headers : List (String × String)) : Option (Route × List (String × String)) :=
  match tbl.routes.find? (fun rt => rt.matches path method host headers) with
  | some rt =>
    some (rt,
      match rt.predicates with
      | some p => extractPathParams p.path path
      | none => [])
  | none => none

/- Routes sorted by priority descending (the sort.Slice comparison of
the router, as a pairwise relation). -/
def SortedDesc (l : List Route) : Prop :=
  List.Sorted (fun a b : Route => b.priority ≤ a.priority) l

/- The documented contract of sort.Slice with the priority comparison:
the output is a sorted permutation of the input.  Go explicitly does
NOT promise stability for sort.Slice. -/
def SortContract (sortFn : List Route → List Route) : Prop :=
  ∀ l, (sortFn l).Perm l ∧ SortedDesc (sortFn l)

/- The outbound request fields touched by the proxy Director. -/
structure ProxyRequest where
  urlScheme : String
  urlHost : String
  host : String
  remoteAddr : String
  headers : List (String × String)
  deriving DecidableEq, Repr

/- net.SplitHostPort restricted to the plain host:port shape of the
RemoteAddr of an accepted IPv4 TCP connection (the bracketed IPv6 form
is outside the model); any other shape is an error. -/
def splitHostPort (s : String) : Option (String × String) :=
  match splitOnChar ':' s with
  | [h, p] => some (h, p)
  | _ => none

/- http.Header.Set: replace the value of the key if present, otherwise
add it (the keys used here are already in canonical MIME form). -/
def headerSet : List (String × String) → String → String → List (String × String)
  | [], k, v => [(k, v)]
  | (k1, v1) :: rest, k, v =>
    if k1 == k then (k, v) :: rest else (k1, v1) :: headerSet rest k v

/- The Director installed by Gateway.proxyHandler (cmd/server/main.go):
scheme, URL host and Host come from the target; X-Forwarded-For is SET
to the client IP — http.Header.Set REPLACES any pre-existing value, it
does not append — and X-Forwarded-Proto is set to http.  When
RemoteAddr does not split as host:port the X-Forwarded-For write is
skipped. -/
def gatewayDirector (targetHost : String) (req : ProxyRequest) : ProxyRequest :=
  let req1 := { req with urlScheme := "http", urlHost := targetHost, host := targetHost }
  let req2 :=
    match splitHostPort req1.remoteAddr with
    | some hp => { req1 with headers := headerSet req1.headers "X-Forwarded-For" hp.1 }
    | none => req1
  { req2 with headers := headerSet req2.headers "X-Forwarded-Proto" "http" }

/- One connection-counter operation on an upstream target list. -/
inductive ConnOp where
  | inc : ConnOp
  | dec : ConnOp
  deriving DecidableEq, Repr

/- A sequence of counter operations against one address, applied left
to right. -/
def applyConnOps (addr : String) : List ConnOp → List Target → List Target
  | [], ts => ts
  | ConnOp.inc :: ops, ts => applyConnOps addr ops (incrementActiveConns ts addr)
  | ConnOp.dec :: ops, ts => applyConnOps addr ops (decrementActiveConns ts addr)

/- Sequences made of matched increment/decrement pairs: every decrement
closes the most recent open increment (Dyck words over inc/dec). -/
inductive Balanced : List ConnOp → Prop where
  | nil : Balanced []
  | pair : ∀ {s t : List ConnOp}, Balanced s → Balanced t →
      Balanced (ConnOp.inc :: s ++ ConnOp.dec :: t)

/- NewRouter publishes an empty table. -/
def newRouter : RouteTable := mkTable []

/- A regexp.Compile stand-in that fails on every pattern; used where a
non-compiling regex is needed and where no regex route occurs at all. -/
def compileNone : String → Option (String → Bool) := fun _ => none

/- A stable priority-descending sort satisfying the sort.Slice
contract; used to instantiate the sortFn parameter in witnesses. -/
def sortRoutes (l : List Route) : List Route :=
  List.insertionSort (fun a b => b.priority ≤ a.priority) l

/- Another sort satisfying the sort.Slice contract that reverses the
relative order of equal-priority routes; sort.Slice does not promise
stability, so this behaviour is within its contract. -/
def antiSort (l : List Route) : List Route :=
  List.insertionSort (fun a b => b.priority ≤ a.priority) l.reverse

/- The outcome demanded of every balancer Select, in both directions:
an empty healthy set forces the ErrNoHealthyTarget error, a non-empty
one forces success with a target TAKEN FROM the healthy list of this
upstream (hence of status healthy); conversely every error is that
error with an empty healthy set behind it, and every returned target
belongs to the healthy list. -/
def selectSpec (u : Upstream) (r : Except String Target) : Prop :=
  (u.getHealthyTargets = [] → r = .error errNoHealthyTarget) ∧
  (u.getHealthyTargets ≠ [] →
    ∃ t, r = .ok t ∧ t ∈ u.getHealthyTargets ∧ t.status = targetStatusHealthy) ∧
  (∀ e, r = .error e → e = errNoHealthyTarget ∧ u.getHealthyTargets = []) ∧
  (∀ t, r = .ok t → t ∈ u.getHealthyTargets ∧ t.status = targetStatusHealthy)

/- The validation defects enumerated by Route.Validate. -/
def RouteDefect (compile : String → Option (String → Bool)) (r : Route) : Prop :=
  r.id = "" ∨ r.predicates = none ∨
    ∃ p, r.predicates = some p ∧
      (p.path = "" ∨ r.upstreamID = "" ∨
        (p.pathType = "regex" ∧ compile p.path = none) ∨
        (∃ m ∈ p.methods, validHTTPMethod (goToUpper m) = false))

/- The method lists stored by a successful validation (none when
validation fails or the predicates are nil). -/
def validatedMethods (compile : String → Option (String → Bool)) (r : Route) :
    Option (List String) :=
  match Route.Validate compile r with
  | .ok r1 =>
    match r1.predicates with
    | some p => some p.methods
    | none => none
  | .error _ => none

/- Concrete inputs for witnesses and counterexamples. -/

def hcDefault : HealthCheck :=
  { enabled := true, type := "http", path := "/health", interval := 10,
    timeout := 5, healthyThreshold := 2, unhealthyThreshold := 3 }

def tgtUnknown : Target :=
  { address := "10.0.0.1:80", weight := 1, status := targetStatusUnknown,
    failCount := 0, activeConns := 0 }

def tgtA : Target :=
  { address := "10.0.0.1:80", weight := 2, status := targetStatusHealthy,
    failCount := 0, activeConns := 0 }

def tgtB : Target :=
  { address := "10.0.0.2:80", weight := 1, status := targetStatusHealthy,
    failCount := 0, activeConns := 3 }

def upAB : Upstream :=
  { id := "u1", name := "u", lbType := "round-robin", targets := [tgtA, tgtB],
    healthCheck := none, timeout := 5, retries := 1 }

def tgtDown : Target :=
  { address := "10.0.0.9:80", weight := 1, status := targetStatusUnhealthy,
    failCount := 3, activeConns := 0 }

/- An upstream whose only target is unhealthy: its healthy set is
empty. -/
def upBad : Upstream :=
  { id := "u2", name := "u2", lbType := "round-robin", targets := [tgtDown],
    healthCheck := none, timeout := 5, retries := 1 }

def c3Req : ProxyRequest :=
  { urlScheme := "", urlHost := "", host := "client.example",
    remoteAddr := "1.2.3.4:5678",
    headers := [("X-Forwarded-For", "9.9.9.9")] }

def predsOf (path pathType : String) (methods : List String) : RoutePredicates :=
  { path := path, pathType := pathType, pathRegex := none, methods := methods,
    headers := [], hosts := [], queryParams := [] }

def routeOf (id : String) (priority : Int) (path : String) : Route :=
  { id := id, name := id, priority := priority, status := routeStatusEnabled,
    predicates := some (predsOf path "" []), upstreamID := "u1", version := 1 }

def c9Route : Route :=
  { id := "r1", name := "r1", priority := 10, status := routeStatusEnabled,
    predicates := some (predsOf "/api" "" ["get", "POST"]), upstreamID := "u1",
    version := 1 }

def c6Route : Route :=
  { id := "r2", name := "r2", priority := 0, status := routeStatusEnabled,
    predicates := some (predsOf "/api" "" ["FETCH"]), upstreamID := "u1",
    version := 1 }

def c1R1 : Route := routeOf "a" 10 "/api"

def c1R2 : Route := routeOf "b" 10 "/api/x"

/- The table after upserting c1R1 then c1R2 when sort.Slice behaves as
antiSort (allowed by its contract). -/
def c1Table : RouteTable :=
  addRouteState antiSort compileNone
    (addRouteState antiSort compileNone newRouter c1R1) c1R2

/- Helper lemmas. -/

theorem lookupHeader_headerSet_same (hs : List (String × String)) (k v : String) :
    lookupHeader (headerSet hs k v) k = some v := by
  induction hs with
  | nil => simp [headerSet, lookupHeader]
  | cons hd tl ih =>
    rcases hd with ⟨k1, v1⟩
    by_cases h : k1 = k
    · subst h
      simp [headerSet, lookupHeader]
    · simp only [headerSet, lookupHeader, beq_iff_eq, if_neg h]
      simpa [lookupHeader, beq_iff_eq, h] using ih

theorem lookupHeader_headerSet_ne (hs : List (String × String)) (k v k2 : String)
    (h : k2 ≠ k) : lookupHeader (headerSet hs k v) k2 = lookupHeader hs k2 := by
  induction hs with
  | nil => simp [headerSet, lookupHeader, beq_iff_eq, Ne.symm h]
  | cons hd tl ih =>
    rcases hd with ⟨k1, v1⟩
    by_cases h1 : k1 = k
    · subst h1
      simp [headerSet, lookupHeader, beq_iff_eq, Ne.symm h]
    · simp [headerSet, lookupHeader, beq_iff_eq, h1, ih]

/-- C2: the spec demands that healthy_threshold consecutive successful
probes move a non-healthy target to healthy, and the comment in
updateTargetStatus states the same intent, but the code resets
FailCount to 0 before comparing it with -HealthyThreshold, so the
comparison 0 ≤ -threshold never holds for the positive threshold: with
the defaulted healthy_threshold = 2 the unknown target is still
unknown after 2 consecutive successes, and still not healthy after
100. -/
theorem c2_success_streak_never_heals :
    (applyProbes hcDefault tgtUnknown [true, true]).status = targetStatusUnknown ∧
    (applyProbes hcDefault tgtUnknown [true, true]).status ≠ targetStatusHealthy ∧
    (applyProbes hcDefault tgtUnknown (List.replicate 100 true)).status ≠
      targetStatusHealthy := by
  refine ⟨rfl, by decide, by decide⟩

/-- C3 counterexample: the Director of Gateway.proxyHandler uses
http.Header.Set, which REPLACES the pre-existing X-Forwarded-For value
instead of appending to it: with client 1.2.3.4:5678 and a pre-existing
value 9.9.9.9 the outbound header is 1.2.3.4, not the appended
9.9.9.9, 1.2.3.4 the claim demands. -/
theorem c3_counterexample :
    lookupHeader c3Req.headers "X-Forwarded-For" = some "9.9.9.9" ∧
    lookupHeader (gatewayDirector "10.0.0.1:80" c3Req).headers "X-Forwarded-For" =
      some "1.2.3.4" ∧
    ("1.2.3.4" : String) ≠ "9.9.9.9, 1.2.3.4" := by
  refine ⟨by decide, by decide, by decide⟩

/-- C3 amended: for every proxied request whose RemoteAddr splits as
host:port, the outbound request carries X-Forwarded-For SET to the
client IP — any pre-existing value is replaced, not preserved — and
X-Forwarded-Proto set to http; scheme, URL host and Host come from the
target. -/
theorem c3_forwarded_headers (target : String) (req : ProxyRequest)
    (ip port : String) (h : splitHostPort req.remoteAddr = some (ip, port)) :
    lookupHeader (gatewayDirector target req).headers "X-Forwarded-For" = some ip ∧
    lookupHeader (gatewayDirector target req).headers "X-Forwarded-Proto" = some "http" ∧
    (gatewayDirector target req).host = target ∧
    (gatewayDirector target req).urlHost = target ∧
    (gatewayDirector target req).urlScheme = "http" := by
  have hdir : gatewayDirector target req =
      { urlScheme := "http", urlHost := target, host := target,
        remoteAddr := req.remoteAddr,
        headers := headerSet (headerSet req.headers "X-Forwarded-For" ip)
          "X-Forwarded-Proto" "http" } := by
    unfold gatewayDirector
    dsimp only
    rw [h]
  rw [hdir]
  refine ⟨?_, ?_, rfl, rfl, rfl⟩
  · rw [lookupHeader_headerSet_ne _ _ _ _ (by decide), lookupHeader_headerSet_same]
  · rw [lookupHeader_headerSet_same]

/-- C3 amended, witness at the concrete counterexample request. -/
theorem c3_forwarded_headers_witness :
    splitHostPort "1.2.3.4:5678" = some ("1.2.3.4", "5678") ∧
    (lookupHeader (gatewayDirector "10.0.0.1:80" c3Req).headers "X-Forwarded-For" =
        some "1.2.3.4" ∧
      lookupHeader (gatewayDirector "10.0.0.1:80" c3Req).headers "X-Forwarded-Proto" =
        some "http" ∧
      (gatewayDirector "10.0.0.1:80" c3Req).host = "10.0.0.1:80" ∧
      (gatewayDirector "10.0.0.1:80" c3Req).urlHost = "10.0.0.1:80" ∧
      (gatewayDirector "10.0.0.1:80" c3Req).urlScheme = "http") :=
  ⟨by decide, c3_forwarded_headers "10.0.0.1:80" c3Req "1.2.3.4" "5678" (by decide)⟩

theorem validate_eq (compile : String → Option (String → Bool))
    (r : Route) (p : RoutePredicates)
    (hid : r.id ≠ "") (hp : r.predicates = some p) (hpath : p.path ≠ "")
    (hup : r.upstreamID ≠ "") (hregex : p.pathType ≠ "regex") :
    Route.Validate compile r =
      if p.methods.all (fun m => validHTTPMethod (goToUpper m)) then .ok r
      else .error "invalid http method" := by
  have heta : { r with predicates := some p } = r := by
    rw [← hp]
  unfold Route.Validate
  rw [hp]
  dsimp only
  rw [if_neg (by simpa using hid), if_neg (by simpa using hpath),
    if_neg (by simpa using hup), if_neg (by simpa using hregex)]
  dsimp only
  rw [heta]

theorem validate_ok_shape (compile : String → Option (String → Bool))
    (r r1 : Route) (h : Route.Validate compile r = .ok r1) :
    r1.id = r.id ∧ r.id ≠ "" ∧ r.upstreamID ≠ "" ∧
      ∃ p, r.predicates = some p ∧ p.path ≠ "" ∧
        (p.pathType = "regex" → ∃ rx, compile p.path = some rx) ∧
        ∀ m ∈ p.methods, validHTTPMethod (goToUpper m) = true := by
  unfold Route.Validate at h
  by_cases hid : r.id = ""
  · simp [hid] at h
  · rw [if_neg (by simpa using hid)] at h
    cases hp : r.predicates with
    | none => rw [hp] at h; dsimp only at h; cases h
    | some p =>
      rw [hp] at h
      dsimp only at h
      by_cases hpath : p.path = ""
      · simp [hpath] at h
      · rw [if_neg (by simpa using hpath)] at h
        by_cases hup : r.upstreamID = ""
        · simp [hup] at h
        · rw [if_neg (by simpa using hup)] at h
          by_cases hregex : p.pathType = "regex"
          · rw [if_pos (by simpa using hregex)] at h
            cases hc : compile p.path with
            | none => rw [hc] at h; cases h
            | some rx =>
              rw [hc] at h
              dsimp only at h
              by_cases hall : (p.methods.all (fun m => validHTTPMethod (goToUpper m))) = true
              · rw [if_pos hall] at h
                refine ⟨?_, hid, hup, p, rfl, hpath, fun _ => ⟨rx, hc⟩, ?_⟩
                · cases h; rfl
                · intro m hm
                  exact List.all_eq_true.mp hall m hm
              · rw [if_neg hall] at h; cases h
          · rw [if_neg (by simpa using hregex)] at h
            dsimp only at h
            by_cases hall : (p.methods.all (fun m => validHTTPMethod (goToUpper m))) = true
            · rw [if_pos hall] at h
              refine ⟨?_, hid, hup, p, rfl, hpath, fun hr => absurd hr hregex, ?_⟩
              · cases h; rfl
              · intro m hm
                exact List.all_eq_true.mp hall m hm
            · rw [if_neg hall] at h; cases h

/-- C9 counterexample: a route whose methods list is the lowercase get
(together with POST) passes validation, yet the stored methods are
exactly the original entries — the uppercase normalisation is applied
only to a loop-local copy, so the stored get is not uppercase. -/
theorem c9_counterexample :
    validatedMethods compileNone c9Route = some ["get", "POST"] ∧
    ∃ m, m ∈ ["get", "POST"] ∧ m ≠ goToUpper m := by
  refine ⟨by decide, "get", by decide, by decide⟩

/-- C9 amended: for a route whose other fields are valid and whose path
type is not regex, Validate succeeds iff every methods entry is one of
GET/POST/PUT/DELETE/PATCH/HEAD/OPTIONS under case-insensitive
comparison, and on success the route — including its methods list — is
stored EXACTLY as given: the entries are not normalised to uppercase
(matching uppercases both sides at match time instead). -/
theorem c9_method_validation (compile : String → Option (String → Bool))
    (r : Route) (p : RoutePredicates)
    (hid : r.id ≠ "") (hp : r.predicates = some p) (hpath : p.path ≠ "")
    (hup : r.upstreamID ≠ "") (hregex : p.pathType ≠ "regex") :
    ((∀ m ∈ p.methods, validHTTPMethod (goToUpper m) = true) →
      Route.Validate compile r = .ok r) ∧
    ((∃ m ∈ p.methods, validHTTPMethod (goToUpper m) = false) →
      Route.Validate compile r = .error "invalid http method") := by
  rw [validate_eq compile r p hid hp hpath hup hregex]
  constructor
  · intro hall
    rw [if_pos (List.all_eq_true.mpr hall)]
  · rintro ⟨m, hm, hbad⟩
    rw [if_neg]
    simp only [List.all_eq_true, not_forall]
    exact ⟨m, hm, by simp [hbad]⟩

/-- C9 amended, witness: the concrete route with methods get and POST
validates and is stored unchanged; the methods list keeps its lowercase
entry. -/
theorem c9_method_validation_witness :
    Route.Validate compileNone c9Route = .ok c9Route :=
  (c9_method_validation compileNone c9Route (predsOf "/api" "" ["get", "POST"])
    (by decide) rfl (by decide) (by decide) (by decide)).1
    (by decide)

/-- C6: a route failing validation (empty id, nil predicates, empty
path, empty upstream id, non-compiling regex path, or an unrecognised
HTTP method) makes AddRoute return the validation error, and the
published snapshot is unchanged — the error path publishes nothing. -/
theorem c6_invalid_route_rejected (sortFn : List Route → List Route)
    (compile : String → Option (String → Bool)) (tbl : RouteTable) (r : Route)
    (hd : RouteDefect compile r) :
    (∃ e, Route.Validate compile r = .error e) ∧
    (∃ e, addRoute sortFn compile tbl r = .error e) ∧
    addRouteState sortFn compile tbl r = tbl := by
  have herr : ∃ e, Route.Validate compile r = .error e := by
    cases hV : Route.Validate compile r with
    | error e => exact ⟨e, rfl⟩
    | ok r1 =>
      exfalso
      obtain ⟨hid1, hid, hup, p, hp, hpath, hcomp, hms⟩ :=
        validate_ok_shape compile r r1 hV
      rcases hd with h | h | ⟨p2, hp2, h⟩
      · exact hid h
      · rw [h] at hp; cases hp
      · rw [hp2] at hp
        injection hp with hpp
        subst hpp
        rcases h with h | h | ⟨h1, h2⟩ | ⟨m, hm, hbad⟩
        · exact hpath h
        · exact hup h
        · obtain ⟨rx, hrx⟩ := hcomp h1
          rw [h2] at hrx; cases hrx
        · rw [hms m hm] at hbad; cases hbad
  obtain ⟨e, he⟩ := herr
  refine ⟨⟨e, he⟩, ⟨e, ?_⟩, ?_⟩
  · unfold addRoute
    rw [he]
  · unfold addRouteState addRoute
    rw [he]

/-- C6 witness: the concrete route with the unrecognised method FETCH
is rejected and the empty published table is untouched. -/
theorem c6_invalid_route_rejected_witness :
    (∃ e, Route.Validate compileNone c6Route = .error e) ∧
    (∃ e, addRoute sortRoutes compileNone newRouter c6Route = .error e) ∧
    addRouteState sortRoutes compileNone newRouter c6Route = newRouter :=
  c6_invalid_route_rejected sortRoutes compileNone newRouter c6Route
    (Or.inr (Or.inr ⟨predsOf "/api" "" ["FETCH"], rfl,
      Or.inr (Or.inr (Or.inr ⟨"FETCH", by decide, by decide⟩))⟩))

theorem incrementActiveConns_nonneg (addr : String) :
    ∀ ts : List Target, (∀ t ∈ ts, 0 ≤ t.activeConns) →
      ∀ t ∈ incrementActiveConns ts addr, 0 ≤ t.activeConns
  | [], _ => by simp [incrementActiveConns]
  | x :: xs, h => by
    rw [incrementActiveConns]
    by_cases hx : (x.address == addr) = true
    · rw [if_pos hx]
      intro t ht
      rcases List.mem_cons.mp ht with rfl | htl
      · have h0 := h x (List.mem_cons_self x xs)
        show (0 : Int) ≤ x.activeConns + 1
        omega
      · exact h t (List.mem_cons_of_mem x htl)
    · rw [if_neg hx]
      intro t ht
      rcases List.mem_cons.mp ht with rfl | htl
      · exact h _ (List.mem_cons_self _ _)
      · exact incrementActiveConns_nonneg addr xs
          (fun t1 ht1 => h t1 (List.mem_cons_of_mem x ht1)) t htl

theorem decrementActiveConns_nonneg (addr : String) :
    ∀ ts : List Target, (∀ t ∈ ts, 0 ≤ t.activeConns) →
      ∀ t ∈ decrementActiveConns ts addr, 0 ≤ t.activeConns
  | [], _ => by simp [decrementActiveConns]
  | x :: xs, h => by
    rw [decrementActiveConns]
    by_cases hx : (x.address == addr && decide (0 < x.activeConns)) = true
    · rw [if_pos hx]
      intro t ht
      rcases List.mem_cons.mp ht with rfl | htl
      · have h0 : (0 : Int) < x.activeConns := by
          have := (Bool.and_eq_true _ _).mp hx
          exact of_decide_eq_true this.2
        show (0 : Int) ≤ x.activeConns - 1
        omega
      · exact h t (List.mem_cons_of_mem x htl)
    · rw [if_neg hx]
      intro t ht
      rcases List.mem_cons.mp ht with rfl | htl
      · exact h _ (List.mem_cons_self _ _)
      · exact decrementActiveConns_nonneg addr xs
          (fun t1 ht1 => h t1 (List.mem_cons_of_mem x ht1)) t htl

theorem decrementActiveConns_zero (addr : String) :
    ∀ ts : List Target, (∀ t ∈ ts, t.address = addr → t.activeConns = 0) →
      decrementActiveConns ts addr = ts
  | [], _ => rfl
  | x :: xs, h => by
    rw [decrementActiveConns]
    have hx : (x.address == addr && decide (0 < x.activeConns)) = false := by
      by_cases hxa : x.address = addr
      · have h0 := h x (List.mem_cons_self x xs) hxa
        simp [h0]
      · simp [hxa]
    rw [if_neg (by simp [hx])]
    rw [decrementActiveConns_zero addr xs
      (fun t ht => h t (List.mem_cons_of_mem x ht))]

theorem dec_inc_cancel (addr : String) :
    ∀ ts : List Target, (∀ t ∈ ts, 0 ≤ t.activeConns) →
      decrementActiveConns (incrementActiveConns ts addr) addr = ts
  | [], _ => rfl
  | x :: xs, h => by
    rw [incrementActiveConns]
    by_cases hx : (x.address == addr) = true
    · rw [if_pos hx]
      rw [decrementActiveConns]
      have h0 := h x (List.mem_cons_self x xs)
      rw [if_pos (by simp only [hx, Bool.true_and]; exact decide_eq_true (by omega))]
      have : ({ x with activeConns := x.activeConns + 1 - 1 } : Target) = x := by
        cases x
        simp
      rw [this]
    · rw [if_neg hx]
      rw [decrementActiveConns]
      rw [if_neg (by simp only [hx, Bool.false_and]; exact Bool.false_ne_true)]
      rw [dec_inc_cancel addr xs (fun t ht => h t (List.mem_cons_of_mem x ht))]

theorem applyConnOps_append (addr : String) (ops1 ops2 : List ConnOp) :
    ∀ ts, applyConnOps addr (ops1 ++ ops2) ts =
      applyConnOps addr ops2 (applyConnOps addr ops1 ts) := by
  induction ops1 with
  | nil => intro ts; rfl
  | cons op rest ih =>
    intro ts
    cases op <;> simp [applyConnOps, ih]

theorem applyConnOps_balanced (addr : String) (ops : List ConnOp) (hb : Balanced ops) :
    ∀ ts : List Target, (∀ t ∈ ts, 0 ≤ t.activeConns) →
      applyConnOps addr ops ts = ts := by
  induction hb with
  | nil => intro ts _; rfl
  | pair hs ht ihs iht =>
    rename_i s t
    intro ts h
    calc applyConnOps addr (ConnOp.inc :: s ++ ConnOp.dec :: t) ts
        = applyConnOps addr (s ++ ConnOp.dec :: t) (incrementActiveConns ts addr) := rfl
      _ = applyConnOps addr (ConnOp.dec :: t)
            (applyConnOps addr s (incrementActiveConns ts addr)) :=
          applyConnOps_append addr s (ConnOp.dec :: t) _
      _ = applyConnOps addr (ConnOp.dec :: t) (incrementActiveConns ts addr) := by
          rw [ihs _ (incrementActiveConns_nonneg addr ts h)]
      _ = applyConnOps addr t (decrementActiveConns (incrementActiveConns ts addr) addr) := rfl
      _ = applyConnOps addr t ts := by rw [dec_inc_cancel addr ts h]
      _ = ts := iht ts h

/-- C10: starting from nonnegative counters, IncrementActiveConns and
DecrementActiveConns keep every ActiveConns nonnegative; a decrement
aimed at an address whose counters are all zero changes nothing (the
guard refuses to go below zero); one increment followed by one
decrement restores the list exactly; and any sequence of matched
increment/decrement pairs restores the starting counters. -/
theorem c10_active_conns (ts : List Target) (addr : String)
    (hnn : ∀ t ∈ ts, 0 ≤ t.activeConns) :
    (∀ t ∈ incrementActiveConns ts addr, 0 ≤ t.activeConns) ∧
    (∀ t ∈ decrementActiveConns ts addr, 0 ≤ t.activeConns) ∧
    ((∀ t ∈ ts, t.address = addr → t.activeConns = 0) →
      decrementActiveConns ts addr = ts) ∧
    decrementActiveConns (incrementActiveConns ts addr) addr = ts ∧
    (∀ ops, Balanced ops → applyConnOps addr ops ts = ts) :=
  ⟨incrementActiveConns_nonneg addr ts hnn,
    decrementActiveConns_nonneg addr ts hnn,
    fun h0 => decrementActiveConns_zero addr ts h0,
    dec_inc_cancel addr ts hnn,
    fun ops hb => applyConnOps_balanced addr ops hb ts hnn⟩

/-- C10 witness: two nested matched pairs against the first target of
the concrete pool restore the pool exactly. -/
theorem c10_active_conns_witness :
    applyConnOps "10.0.0.1:80" [ConnOp.inc, ConnOp.inc, ConnOp.dec, ConnOp.dec]
      [tgtA, tgtB] = [tgtA, tgtB] :=
  (c10_active_conns [tgtA, tgtB] "10.0.0.1:80" (by decide)).2.2.2.2
    [ConnOp.inc, ConnOp.inc, ConnOp.dec, ConnOp.dec]
    (Balanced.pair (Balanced.pair Balanced.nil Balanced.nil) Balanced.nil)

theorem healthy_status (u : Upstream) (t : Target) (h : t ∈ u.getHealthyTargets) :
    t.status = targetStatusHealthy := by
  have := List.of_mem_filter h
  simpa [beq_iff_eq] using this

theorem weightedScan_mem (cur : Int) : ∀ (sum : Int) (l : List Target) (t : Target),
    weightedScan cur sum l = some t → t ∈ l
  | _, [], t, h => by cases h
  | sum, x :: xs, t, h => by
    rw [weightedScan] at h
    by_cases hc : cur < sum + x.weight
    · rw [if_pos hc] at h
      cases h
      exact List.mem_cons_self _ _
    · rw [if_neg hc] at h
      exact List.mem_cons_of_mem _ (weightedScan_mem cur _ xs t h)

theorem getD_scan_mem (cur : Int) (t : Target) (ts : List Target) :
    (weightedScan cur 0 (t :: ts)).getD t ∈ t :: ts := by
  cases hsc : weightedScan cur 0 (t :: ts) with
  | none => exact List.mem_cons_self _ _
  | some t1 => exact weightedScan_mem cur 0 (t :: ts) t1 hsc

theorem leastConnLoop_mem : ∀ (m : Int) (sel : Target) (l : List Target),
    leastConnLoop m sel l = sel ∨ leastConnLoop m sel l ∈ l
  | _, _, [] => Or.inl rfl
  | m, sel, x :: xs => by
    rw [leastConnLoop]
    by_cases hc : x.activeConns < m
    · rw [if_pos hc]
      rcases leastConnLoop_mem x.activeConns x xs with h | h
      · exact Or.inr (by rw [h]; exact List.mem_cons_self x xs)
      · exact Or.inr (List.mem_cons_of_mem x h)
    · rw [if_neg hc]
      rcases leastConnLoop_mem m sel xs with h | h
      · exact Or.inl h
      · exact Or.inr (List.mem_cons_of_mem x h)

theorem getD_mem_of_lt : ∀ (l : List Target) (k : Nat) (d : Target),
    k < l.length → l.getD k d ∈ l
  | [], _, _, h => absurd h (by simp)
  | x :: _, 0, _, _ => List.mem_cons_self _ _
  | x :: xs, k + 1, d, h =>
    List.mem_cons_of_mem x (getD_mem_of_lt xs k d (by simpa using h))

theorem selectSpec_of_forward (u : Upstream) (r : Except String Target)
    (h1 : u.getHealthyTargets = [] → r = .error errNoHealthyTarget)
    (h2 : u.getHealthyTargets ≠ [] →
      ∃ t, r = .ok t ∧ t ∈ u.getHealthyTargets ∧ t.status = targetStatusHealthy) :
    selectSpec u r := by
  refine ⟨h1, h2, ?_, ?_⟩
  · intro e he
    cases hts : u.getHealthyTargets with
    | nil =>
      have hr := h1 hts
      rw [he] at hr
      injection hr with hr1
      exact ⟨hr1, rfl⟩
    | cons t0 ts =>
      obtain ⟨t, htr, _, _⟩ := h2 (by simp [hts])
      rw [he] at htr
      cases htr
  · intro t ht
    cases hts : u.getHealthyTargets with
    | nil =>
      have hr := h1 hts
      rw [ht] at hr
      cases hr
    | cons t0 ts =>
      obtain ⟨t1, htr, hmem, hst⟩ := h2 (by simp [hts])
      rw [ht] at htr
      injection htr with htr1
      subst htr1
      rw [hts] at hmem
      exact ⟨hmem, hst⟩

theorem roundRobin_selectSpec (u : Upstream) (cur : Nat) :
    selectSpec u (roundRobinSelect u cur).2 := by
  apply selectSpec_of_forward
  · intro hts
    simp [roundRobinSelect, hts]
  · intro hne
    cases hts : u.getHealthyTargets with
    | nil => exact absurd hts hne
    | cons t0 ts =>
      refine ⟨(t0 :: ts).get ⟨((cur + 1) % 2 ^ 32) % (t0 :: ts).length,
        Nat.mod_lt _ (Nat.succ_pos ts.length)⟩, ?_, ?_, ?_⟩
      · simp only [roundRobinSelect, hts]
      · exact List.get_mem _ _ _
      · apply healthy_status u
        rw [hts]
        exact List.get_mem _ _ _

theorem weighted_selectSpec (u : Upstream) (current : Int) :
    selectSpec u (weightedSelect u current).2 := by
  apply selectSpec_of_forward
  · intro hts
    simp [weightedSelect, hts]
  · intro hne
    cases hts : u.getHealthyTargets with
    | nil => exact absurd hts hne
    | cons t0 ts =>
      refine ⟨(weightedScan
          ((current + 1).tmod (((t0 :: ts).map Target.weight).sum)) 0
          (t0 :: ts)).getD t0, ?_, ?_, ?_⟩
      · simp only [weightedSelect, hts]
      · exact getD_scan_mem _ t0 ts
      · apply healthy_status u
        rw [hts]
        exact getD_scan_mem _ t0 ts

theorem leastConn_selectSpec (u : Upstream) :
    selectSpec u (leastConnSelect u) := by
  apply selectSpec_of_forward
  · intro hts
    simp [leastConnSelect, hts]
  · intro hne
    cases hts : u.getHealthyTargets with
    | nil => exact absurd hts hne
    | cons t0 ts =>
      have hmem : leastConnLoop t0.activeConns t0 ts ∈ t0 :: ts := by
        rcases leastConnLoop_mem t0.activeConns t0 ts with h | h
        · rw [h]
          exact List.mem_cons_self t0 ts
        · exact List.mem_cons_of_mem t0 h
      refine ⟨leastConnLoop t0.activeConns t0 ts, ?_, ?_, ?_⟩
      · simp only [leastConnSelect, hts]
      · exact hmem
      · apply healthy_status u
        rw [hts]
        exact hmem

theorem ipHash_selectSpec (u : Upstream) (ip : String) :
    selectSpec u (ipHashSelect u ip) := by
  apply selectSpec_of_forward
  · intro hts
    simp [ipHashSelect, hts]
  · intro hne
    cases hts : u.getHealthyTargets with
    | nil => exact absurd hts hne
    | cons t0 ts =>
      refine ⟨(t0 :: ts).get ⟨crc32 ip % (t0 :: ts).length,
        Nat.mod_lt _ (Nat.succ_pos ts.length)⟩, ?_, ?_, ?_⟩
      · simp only [ipHashSelect, hts]
      · exact List.get_mem _ _ _
      · apply healthy_status u
        rw [hts]
        exact List.get_mem _ _ _

theorem random_selectSpec (u : Upstream) (k : Nat)
    (hk : u.getHealthyTargets = [] ∨ k < u.getHealthyTargets.length) :
    selectSpec u (randomSelect u k) := by
  apply selectSpec_of_forward
  · intro hts
    simp [randomSelect, hts]
  · intro hne
    cases hts : u.getHealthyTargets with
    | nil => exact absurd hts hne
    | cons t0 ts =>
      have hklt : k < (t0 :: ts).length := by
        rcases hk with h | h
        · rw [hts] at h
          cases h
        · rw [hts] at h
          exact h
      have hmem : (t0 :: ts).getD k t0 ∈ t0 :: ts :=
        getD_mem_of_lt (t0 :: ts) k t0 hklt
      refine ⟨(t0 :: ts).getD k t0, ?_, ?_, ?_⟩
      · simp only [randomSelect, hts]
      · exact hmem
      · apply healthy_status u
        rw [hts]
        exact hmem

/-- C4: for every load-balancing policy (round-robin, weighted,
least-connection, IP-hash, random) and every upstream, Select returns
ErrNoHealthyTarget IF the set of targets with status healthy is empty,
and otherwise returns a target drawn from that healthy set (hence with
status healthy); conversely every error it returns is
ErrNoHealthyTarget with an empty healthy set behind it.  k stands for
the rand.Intn(len) draw of the random policy (always below the
length), and the weights are assumed validated (at least 1) because
the Go weighted balancer would divide by zero rather than return on a
zero total weight. -/
theorem c4_select_healthy (u : Upstream) (cur : Nat) (curW : Int) (ip : String)
    (k : Nat) (hw : ∀ t ∈ u.targets, 1 ≤ t.weight)
    (hk : u.getHealthyTargets = [] ∨ k < u.getHealthyTargets.length) :
    selectSpec u (roundRobinSelect u cur).2 ∧
    selectSpec u (weightedSelect u curW).2 ∧
    selectSpec u (leastConnSelect u) ∧
    selectSpec u (ipHashSelect u ip) ∧
    selectSpec u (randomSelect u k) :=
  ⟨roundRobin_selectSpec u cur, weighted_selectSpec u curW,
    leastConn_selectSpec u, ipHash_selectSpec u ip,
    random_selectSpec u k hk⟩

/-- C4 witness: the full outcome specification at the concrete
two-target healthy pool AND at the pool whose only target is
unhealthy; on the latter every policy concretely returns
ErrNoHealthyTarget. -/
theorem c4_select_healthy_witness :
    (selectSpec upAB (roundRobinSelect upAB 0).2 ∧
      selectSpec upAB (weightedSelect upAB 0).2 ∧
      selectSpec upAB (leastConnSelect upAB) ∧
      selectSpec upAB (ipHashSelect upAB "1.2.3.4") ∧
      selectSpec upAB (randomSelect upAB 1)) ∧
    (selectSpec upBad (roundRobinSelect upBad 0).2 ∧
      selectSpec upBad (weightedSelect upBad 0).2 ∧
      selectSpec upBad (leastConnSelect upBad) ∧
      selectSpec upBad (ipHashSelect upBad "1.2.3.4") ∧
      selectSpec upBad (randomSelect upBad 0)) ∧
    (roundRobinSelect upBad 0).2 = .error errNoHealthyTarget ∧
    (weightedSelect upBad 0).2 = .error errNoHealthyTarget ∧
    leastConnSelect upBad = .error errNoHealthyTarget ∧
    ipHashSelect upBad "1.2.3.4" = .error errNoHealthyTarget ∧
    randomSelect upBad 0 = .error errNoHealthyTarget := by
  have hA := c4_select_healthy upAB 0 0 "1.2.3.4" 1 (by decide)
    (Or.inr (by decide))
  have hB := c4_select_healthy upBad 0 0 "1.2.3.4" 0 (by decide)
    (Or.inl (by decide))
  have hempty : upBad.getHealthyTargets = [] := by decide
  exact ⟨hA, hB, hB.1.1 hempty, hB.2.1.1 hempty, hB.2.2.1.1 hempty,
    hB.2.2.2.1.1 hempty, hB.2.2.2.2.1 hempty⟩

/-- C8: IP-hash selection over a non-empty healthy list returns the
element at index crc32(clientIP) mod length; it is a pure function of
the healthy list and the IP string, so any two upstreams exposing the
same healthy list yield the same target for the same client IP — in
particular repeated calls with an unchanged list are sticky. -/
theorem c8_iphash (u v : Upstream) (s : String) (t0 : Target) (ts : List Target)
    (hu : u.getHealthyTargets = t0 :: ts) (hv : v.getHealthyTargets = t0 :: ts) :
    ipHashSelect u s =
      .ok ((t0 :: ts).get ⟨crc32 s % (t0 :: ts).length,
        Nat.mod_lt _ (Nat.succ_pos ts.length)⟩) ∧
    ipHashSelect u s = ipHashSelect v s := by
  constructor
  · simp only [ipHashSelect, hu]
  · simp only [ipHashSelect, hu, hv]

/-- C8 witness: with two healthy targets, the client 5.6.7.8 lands on
index crc32 mod 2 = 1, the second target, every time. -/
theorem c8_iphash_witness :
    ipHashSelect upAB "5.6.7.8" =
      .ok (([tgtA, tgtB] : List Target).get ⟨crc32 "5.6.7.8" % 2, by decide⟩) ∧
    ipHashSelect upAB "5.6.7.8" = .ok tgtB := by
  have h := c8_iphash upAB upAB "5.6.7.8" tgtA [tgtB] (by decide) (by decide)
  exact ⟨h.1, h.1.trans (congrArg Except.ok (by decide))⟩

theorem sum_weights_pos (t0 : Target) (ts : List Target)
    (hw : ∀ t ∈ t0 :: ts, 1 ≤ t.weight) :
    0 < ((t0 :: ts).map Target.weight).sum := by
  have h0 : (0 : Int) ≤ (ts.map Target.weight).sum := by
    apply List.sum_nonneg
    intro x hx
    obtain ⟨t, ht, rfl⟩ := List.mem_map.mp hx
    have := hw t (List.mem_cons_of_mem t0 ht)
    omega
  have h1 := hw t0 (List.mem_cons_self t0 ts)
  simp only [List.map_cons, List.sum_cons]
  omega

theorem weightedScan_spec : ∀ (l : List Target) (cur sum : Int),
    sum ≤ cur → cur < sum + (l.map Target.weight).sum →
    ∃ (i : Nat) (hi : i < l.length),
      weightedScan cur sum l = some (l.get ⟨i, hi⟩) ∧
      cur < sum + ((l.take (i + 1)).map Target.weight).sum ∧
      ∀ j, j < i → sum + ((l.take (j + 1)).map Target.weight).sum ≤ cur
  | [], cur, sum, hlo, hhi => by
    exfalso
    simp only [List.map_nil, List.sum_nil, Int.add_zero] at hhi
    omega
  | x :: xs, cur, sum, hlo, hhi => by
    rw [weightedScan]
    by_cases hc : cur < sum + x.weight
    · refine ⟨0, by simp, ?_, ?_, ?_⟩
      · rw [if_pos hc]
        rfl
      · simpa using hc
      · intro j hj
        exact absurd hj (Nat.not_lt_zero j)
    · rw [if_neg hc]
      have hlo1 : sum + x.weight ≤ cur := not_lt.mp hc
      have hsum : ((x :: xs).map Target.weight).sum =
          x.weight + (xs.map Target.weight).sum := by
        simp
      have hhi1 : cur < (sum + x.weight) + (xs.map Target.weight).sum := by
        omega
      obtain ⟨i, hi, hscan, hub, hlb⟩ :=
        weightedScan_spec xs cur (sum + x.weight) hlo1 hhi1
      refine ⟨i + 1, by simpa using hi, ?_, ?_, ?_⟩
      · rw [hscan]
        rfl
      · have htake : (((x :: xs).take (i + 1 + 1)).map Target.weight).sum =
            x.weight + ((xs.take (i + 1)).map Target.weight).sum := by
          simp
        omega
      · intro j hj
        cases j with
        | zero =>
          have htake0 : (((x :: xs).take (0 + 1)).map Target.weight).sum = x.weight := by
            simp
          omega
        | succ j1 =>
          have hj1 := hlb j1 (by omega)
          have htake1 : (((x :: xs).take (j1 + 1 + 1)).map Target.weight).sum =
              x.weight + ((xs.take (j1 + 1)).map Target.weight).sum := by
            simp
          omega

/-- C7: each weighted Select call over a non-empty healthy list first
steps the per-balancer counter to (current + 1) mod totalWeight — so
with a nonnegative incoming counter the stored counter always stays in
[0, totalWeight) — and then returns the first target in list order
whose cumulative weight exceeds the stepped counter. -/
theorem c7_weighted_step (u : Upstream) (current : Int) (t0 : Target)
    (ts : List Target) (hts : u.getHealthyTargets = t0 :: ts)
    (hcur : 0 ≤ current) (hw : ∀ t ∈ t0 :: ts, 1 ≤ t.weight) :
    (weightedSelect u current).1 =
      (current + 1).tmod (((t0 :: ts).map Target.weight).sum) ∧
    0 ≤ (weightedSelect u current).1 ∧
    (weightedSelect u current).1 < ((t0 :: ts).map Target.weight).sum ∧
    ∃ (i : Nat) (hi : i < (t0 :: ts).length),
      (weightedSelect u current).2 = .ok ((t0 :: ts).get ⟨i, hi⟩) ∧
      (weightedSelect u current).1 <
        (((t0 :: ts).take (i + 1)).map Target.weight).sum ∧
      ∀ j, j < i →
        (((t0 :: ts).take (j + 1)).map Target.weight).sum ≤
          (weightedSelect u current).1 := by
  have hWpos := sum_weights_pos t0 ts hw
  have hsel1 : (weightedSelect u current).1 =
      (current + 1).tmod (((t0 :: ts).map Target.weight).sum) := by
    simp only [weightedSelect, hts]
  have hnn : 0 ≤ (current + 1).tmod (((t0 :: ts).map Target.weight).sum) :=
    Int.tmod_nonneg _ (by omega)
  have hlt : (current + 1).tmod (((t0 :: ts).map Target.weight).sum) <
      ((t0 :: ts).map Target.weight).sum :=
    Int.tmod_lt_of_pos _ hWpos
  obtain ⟨i, hi, hscan, hub, hlb⟩ :=
    weightedScan_spec (t0 :: ts)
      ((current + 1).tmod (((t0 :: ts).map Target.weight).sum)) 0 hnn
      (by omega)
  refine ⟨hsel1, by rw [hsel1]; exact hnn, by rw [hsel1]; exact hlt,
    i, hi, ?_, ?_, ?_⟩
  · simp only [weightedSelect, hts]
    rw [hscan]
    rfl
  · rw [hsel1]
    simpa using hub

  · intro j hj
    rw [hsel1]
    have := hlb j hj
    omega

/-- C7 witness: weights 2 and 1, counter 0: the stepped counter is 1,
within [0, 3), and the first target (cumulative weight 2 exceeding 1)
is returned. -/
theorem c7_weighted_step_witness :
    (weightedSelect upAB 0).1 =
      ((0 : Int) + 1).tmod ((([tgtA, tgtB] : List Target).map Target.weight).sum) ∧
    0 ≤ (weightedSelect upAB 0).1 ∧
    (weightedSelect upAB 0).1 < (([tgtA, tgtB] : List Target).map Target.weight).sum ∧
    ∃ (i : Nat) (hi : i < ([tgtA, tgtB] : List Target).length),
      (weightedSelect upAB 0).2 = .ok (([tgtA, tgtB] : List Target).get ⟨i, hi⟩) ∧
      (weightedSelect upAB 0).1 <
        ((([tgtA, tgtB] : List Target).take (i + 1)).map Target.weight).sum ∧
      ∀ j, j < i →
        ((([tgtA, tgtB] : List Target).take (j + 1)).map Target.weight).sum ≤
          (weightedSelect upAB 0).1 :=
  c7_weighted_step upAB 0 tgtA [tgtB] (by decide) (by decide) (by decide)

instance routeRelTotal : IsTotal Route (fun a b => b.priority ≤ a.priority) :=
  ⟨fun a b => le_total b.priority a.priority⟩

instance routeRelTrans : IsTrans Route (fun a b => b.priority ≤ a.priority) :=
  ⟨fun _ _ _ h1 h2 => le_trans h2 h1⟩

theorem sortRoutes_contract : SortContract sortRoutes := by
  intro l
  exact ⟨List.perm_insertionSort _ l, List.sorted_insertionSort _ l⟩

theorem antiSort_contract : SortContract antiSort := by
  intro l
  exact ⟨(List.perm_insertionSort _ _).trans (List.reverse_perm l),
    List.sorted_insertionSort _ _⟩

theorem mapLookup_mapInsert_same (m : List (String × Route)) (k : String) (v : Route) :
    mapLookup (mapInsert m k v) k = some v := by
  induction m with
  | nil => simp [mapInsert, mapLookup]
  | cons hd tl ih =>
    rcases hd with ⟨k1, v1⟩
    by_cases h : k1 = k
    · subst h
      simp [mapInsert, mapLookup]
    · simp only [mapInsert, mapLookup, beq_iff_eq, if_neg h]
      simpa [mapLookup, beq_iff_eq, h] using ih

theorem mapLookup_mapInsert_ne (m : List (String × Route)) (k : String) (v : Route)
    (k2 : String) (h : k2 ≠ k) :
    mapLookup (mapInsert m k v) k2 = mapLookup m k2 := by
  induction m with
  | nil => simp [mapInsert, mapLookup, beq_iff_eq, Ne.symm h]
  | cons hd tl ih =>
    rcases hd with ⟨k1, v1⟩
    by_cases h1 : k1 = k
    · subst h1
      simp [mapInsert, mapLookup, beq_iff_eq, Ne.symm h]
    · simp [mapInsert, mapLookup, beq_iff_eq, h1, ih]

theorem mapLookup_foldIndex (k : String) :
    ∀ (l : List Route) (m : List (String × Route)),
      mapLookup (l.foldl (fun acc r => mapInsert acc r.id r) m) k =
        match l.reverse.find? (fun r => r.id == k) with
        | some r => some r
        | none => mapLookup m k := by
  intro l
  induction l with
  | nil => intro m; rfl
  | cons r rest ih =>
    intro m
    rw [List.foldl_cons, ih]
    have hrev : (r :: rest).reverse = rest.reverse ++ [r] := by simp
    rw [hrev, List.find?_append]
    cases hf : rest.reverse.find? (fun r => r.id == k) with
    | some x => rfl
    | none =>
      by_cases hk : r.id = k
      · subst hk
        simp [List.find?, mapLookup_mapInsert_same]
      · have hbk : (r.id == k) = false := by simpa [beq_iff_eq] using hk
        have : ([r].find? (fun r => r.id == k)) = none := by
          simp [List.find?, hbk]
        rw [this]
        simp only [Option.orElse_none, Option.none_orElse]
        exact mapLookup_mapInsert_ne m r.id r k (Ne.symm hk)

theorem mapLookup_buildIndex (l : List Route) (k : String) :
    mapLookup (buildIndex l) k =
      match l.reverse.find? (fun r => r.id == k) with
      | some r => some r
      | none => none := by
  unfold buildIndex
  rw [mapLookup_foldIndex]
  rfl

theorem getRoute_eq_none (l : List Route) (k : String) (h : ∀ r ∈ l, r.id ≠ k) :
    mapLookup (buildIndex l) k = none := by
  rw [mapLookup_buildIndex]
  have hf : l.reverse.find? (fun r => r.id == k) = none := by
    rw [List.find?_eq_none]
    intro x hx
    simpa [beq_iff_eq] using h x (List.mem_reverse.mp hx)
  rw [hf]

theorem getRoute_eq_unique (l : List Route) (k : String) (v : Route)
    (hmem : v ∈ l) (hvk : v.id = k) (huniq : ∀ x ∈ l, x.id = k → x = v) :
    mapLookup (buildIndex l) k = some v := by
  rw [mapLookup_buildIndex]
  cases hf : l.reverse.find? (fun r => r.id == k) with
  | none =>
    rw [List.find?_eq_none] at hf
    exact absurd (by simpa [beq_iff_eq] using hvk)
      (hf v (List.mem_reverse.mpr hmem))
  | some x =>
    have hx1 := List.find?_some hf
    have hx2 := List.mem_of_find?_eq_some hf
    rw [huniq x (List.mem_reverse.mp hx2) (by simpa [beq_iff_eq] using hx1)]

theorem replaceOrKeep_mem (route : Route) :
    ∀ l : List Route, ∀ x ∈ (replaceOrKeep route l).1,
      x = route ∨ (x ∈ l ∧ x.id ≠ route.id)
  | [], x, hx => by cases hx
  | y :: ys, x, hx => by
    rw [replaceOrKeep] at hx
    by_cases hy : (y.id == route.id) = true
    · rw [if_pos hy] at hx
      rcases List.mem_cons.mp hx with rfl | hx1
      · exact Or.inl rfl
      · rcases replaceOrKeep_mem route ys x hx1 with h | ⟨h1, h2⟩
        · exact Or.inl h
        · exact Or.inr ⟨List.mem_cons_of_mem y h1, h2⟩
    · rw [if_neg hy] at hx
      rcases List.mem_cons.mp hx with rfl | hx1
      · exact Or.inr ⟨List.mem_cons_self _ _, by simpa [bne_iff_ne, beq_iff_eq] using hy⟩
      · rcases replaceOrKeep_mem route ys x hx1 with h | ⟨h1, h2⟩
        · exact Or.inl h
        · exact Or.inr ⟨List.mem_cons_of_mem y h1, h2⟩

theorem replaceOrKeep_self_mem (route : Route) :
    ∀ l : List Route, (replaceOrKeep route l).2 = true →
      route ∈ (replaceOrKeep route l).1
  | [], h => by cases h
  | y :: ys, h => by
    rw [replaceOrKeep] at h ⊢
    by_cases hy : (y.id == route.id) = true
    · rw [if_pos hy]
      exact List.mem_cons_self _ _
    · rw [if_neg hy] at h ⊢
      exact List.mem_cons_of_mem y (replaceOrKeep_self_mem route ys h)

theorem find?_sorted_max (p : Route → Bool) :
    ∀ l : List Route, SortedDesc l → ∀ rt : Route, l.find? p = some rt →
      p rt = true ∧ ∀ x ∈ l, p x = true → x.priority ≤ rt.priority
  | [], _, rt, h => by cases h
  | x :: xs, hsort, rt, h => by
    by_cases hx : p x = true
    · rw [List.find?_cons_of_pos _ hx] at h
      injection h with h1
      subst h1
      refine ⟨hx, ?_⟩
      intro y hy hpy
      rcases List.mem_cons.mp hy with rfl | hy1
      · exact le_refl _
      · exact (List.sorted_cons.mp hsort).1 y hy1
    · rw [List.find?_cons_of_neg _ (by simpa using hx)] at h
      obtain ⟨h1, h2⟩ :=
        find?_sorted_max p xs (List.sorted_cons.mp hsort).2 rt h
      refine ⟨h1, ?_⟩
      intro y hy hpy
      rcases List.mem_cons.mp hy with rfl | hy1
      · exact absurd hpy hx
      · exact h2 y hy1 hpy

theorem matches_enabled (r : Route) (path method host : String)
    (hdrs : List (String × String))
    (h : r.matches path method host hdrs = true) :
    r.status = routeStatusEnabled := by
  unfold Route.matches at h
  by_cases hst : (r.status != routeStatusEnabled) = true
  · rw [if_pos hst] at h
    cases h
  · simpa [bne_iff_ne] using hst

/-- C5: for any sort satisfying the sort.Slice contract — after a
successful AddRoute of a route validated as r1 (same id; identical to
the input except for a possibly compiled regex), GetRoute(r.id)
returns r1 and r1 is in ListRoutes of the published snapshot; after
DeleteRoute(id), GetRoute(id) returns none; deleting an id absent from
the table leaves the route list unchanged (and the Go function always
returns nil, so it succeeds). -/
theorem c5_table_crud (sortFn : List Route → List Route)
    (compile : String → Option (String → Bool)) (hs : SortContract sortFn)
    (tbl : RouteTable) (r r1 : Route) (routeID : String)
    (hv : Route.Validate compile r = .ok r1) :
    (getRoute (addRouteState sortFn compile tbl r) r.id = some r1 ∧
      r1 ∈ listRoutes (addRouteState sortFn compile tbl r)) ∧
    getRoute (deleteRoute tbl routeID) routeID = none ∧
    ((∀ rt ∈ tbl.routes, rt.id ≠ routeID) →
      listRoutes (deleteRoute tbl routeID) = listRoutes tbl) := by
  have hid1 : r1.id = r.id := (validate_ok_shape compile r r1 hv).1
  constructor
  · have haddeq : addRouteState sortFn compile tbl r =
        mkTable (sortFn (if (replaceOrKeep r1 tbl.routes).2 then
          (replaceOrKeep r1 tbl.routes).1
          else (replaceOrKeep r1 tbl.routes).1 ++ [r1])) := by
      unfold addRouteState addRoute
      rw [hv]
    set newRoutes := if (replaceOrKeep r1 tbl.routes).2 then
      (replaceOrKeep r1 tbl.routes).1
      else (replaceOrKeep r1 tbl.routes).1 ++ [r1] with hnew
    have hperm : (sortFn newRoutes).Perm newRoutes := (hs newRoutes).1
    have hmemNew : r1 ∈ newRoutes := by
      rw [hnew]
      by_cases hrep : (replaceOrKeep r1 tbl.routes).2 = true
      · rw [if_pos hrep]
        exact replaceOrKeep_self_mem r1 tbl.routes hrep
      · rw [if_neg hrep]
        exact List.mem_append_right _ (List.mem_cons_self _ _)
    have huniqNew : ∀ x ∈ newRoutes, x.id = r1.id → x = r1 := by
      intro x hx hxid
      rw [hnew] at hx
      have hx1 : x ∈ (replaceOrKeep r1 tbl.routes).1 ∨ x = r1 := by
        by_cases hrep : (replaceOrKeep r1 tbl.routes).2 = true
        · rw [if_pos hrep] at hx
          exact Or.inl hx
        · rw [if_neg hrep] at hx
          rcases List.mem_append.mp hx with h | h
          · exact Or.inl h
          · exact Or.inr (List.mem_singleton.mp h)
      rcases hx1 with h | h
      · rcases replaceOrKeep_mem r1 tbl.routes x h with h1 | ⟨_, h2⟩
        · exact h1
        · exact absurd hxid h2
      · exact h
    have hmemS : r1 ∈ sortFn newRoutes := hperm.mem_iff.mpr hmemNew
    have huniqS : ∀ x ∈ sortFn newRoutes, x.id = r.id → x = r1 := by
      intro x hx hxid
      exact huniqNew x (hperm.mem_iff.mp hx) (by rw [hxid, hid1])
    constructor
    · rw [haddeq]
      exact getRoute_eq_unique (sortFn newRoutes) r.id r1 hmemS hid1 huniqS
    · rw [haddeq]
      exact hmemS
  · constructor
    · apply getRoute_eq_none
      intro rt hrt
      have := List.of_mem_filter hrt
      simpa [bne_iff_ne] using this
    · intro h
      show (tbl.routes.filter (fun r => r.id != routeID)) = tbl.routes
      rw [List.filter_eq_self]
      intro a ha
      simpa [bne_iff_ne] using h a ha

/-- C5 witness: adding the concrete route to the empty router makes it
retrievable and listed; deleting an absent id from the empty table
yields none and leaves the (empty) list unchanged. -/
theorem c5_table_crud_witness :
    (getRoute (addRouteState sortRoutes compileNone newRouter c1R1) c1R1.id =
        some c1R1 ∧
      c1R1 ∈ listRoutes (addRouteState sortRoutes compileNone newRouter c1R1)) ∧
    getRoute (deleteRoute newRouter "zzz") "zzz" = none ∧
    ((∀ rt ∈ newRouter.routes, rt.id ≠ "zzz") →
      listRoutes (deleteRoute newRouter "zzz") = listRoutes newRouter) :=
  c5_table_crud sortRoutes compileNone sortRoutes_contract newRouter c1R1 c1R1
    "zzz"
    ((validate_eq compileNone c1R1 (predsOf "/api" "" []) (by decide) rfl
      (by decide) (by decide) (by decide)).trans (if_pos (by decide)))

/-- C1 amended: every published snapshot is sorted by priority
descending (LoadRoutes, AddRoute — including its no-publish error
path — and DeleteRoute all preserve this for any sort satisfying the
sort.Slice contract), and over a sorted snapshot Match returns a route
that is enabled, whose predicates all match, and whose priority is
maximal among the routes of the snapshot that match; when Match
returns none, no route of the snapshot matches.  The insertion-order
tie-break of the original claim is NOT guaranteed: sort.Slice is
unstable, so the order of equal-priority routes is whatever the sort
produced (see the counterexample). -/
theorem c1_match_max_priority (sortFn : List Route → List Route)
    (compile : String → Option (String → Bool)) (hs : SortContract sortFn)
    (tbl : RouteTable) (r : Route) (rs : List Route) (routeID : String)
    (path method host : String) (headers : List (String × String))
    (htbl : SortedDesc tbl.routes) :
    SortedDesc (loadRoutes sortFn compile rs).routes ∧
    SortedDesc (addRouteState sortFn compile tbl r).routes ∧
    SortedDesc (deleteRoute tbl routeID).routes ∧
    (∀ rt pm, matchReq tbl path method host headers = some (rt, pm) →
      rt.matches path method host headers = true ∧
      rt.status = routeStatusEnabled ∧
      ∀ rt2 ∈ tbl.routes, rt2.matches path method host headers = true →
        rt2.priority ≤ rt.priority) ∧
    (matchReq tbl path method host headers = none →
      ∀ rt2 ∈ tbl.routes, rt2.matches path method host headers = false) := by
  refine ⟨(hs _).2, ?_, ?_, ?_, ?_⟩
  · unfold addRouteState
    cases hV : addRoute sortFn compile tbl r with
    | error e => exact htbl
    | ok t1 =>
      unfold addRoute at hV
      cases hv : Route.Validate compile r with
      | error e => rw [hv] at hV; cases hV
      | ok r1 =>
        rw [hv] at hV
        dsimp only at hV
        injection hV with hV
        rw [← hV]
        exact (hs _).2
  · exact List.Pairwise.filter _ htbl
  · intro rt pm hm
    unfold matchReq at hm
    cases hf : tbl.routes.find?
        (fun rt => rt.matches path method host headers) with
    | none => rw [hf] at hm; cases hm
    | some rt1 =>
      rw [hf] at hm
      dsimp only at hm
      injection hm with hm1
      obtain rfl : rt1 = rt := congrArg Prod.fst hm1
      obtain ⟨h1, h2⟩ := find?_sorted_max _ tbl.routes htbl rt1 hf
      exact ⟨h1, matches_enabled rt1 path method host headers h1, h2⟩
  · intro hm rt2 hrt2
    unfold matchReq at hm
    cases hf : tbl.routes.find?
        (fun rt => rt.matches path method host headers) with
    | some rt1 => rw [hf] at hm; cases hm
    | none =>
      rw [List.find?_eq_none] at hf
      exact Bool.not_eq_true _ ▸ eq_false_of_ne_true (hf rt2 hrt2)

/-- C1 amended, witness over a concrete one-route sorted snapshot. -/
theorem c1_match_max_priority_witness :
    SortedDesc (loadRoutes sortRoutes compileNone [c1R1, c1R2]).routes ∧
    SortedDesc (addRouteState sortRoutes compileNone (mkTable [c1R1]) c1R2).routes ∧
    SortedDesc (deleteRoute (mkTable [c1R1]) "a").routes ∧
    (∀ rt pm, matchReq (mkTable [c1R1]) "/api/users" "GET" "example.com" [] =
        some (rt, pm) →
      rt.matches "/api/users" "GET" "example.com" [] = true ∧
      rt.status = routeStatusEnabled ∧
      ∀ rt2 ∈ (mkTable [c1R1]).routes,
        rt2.matches "/api/users" "GET" "example.com" [] = true →
          rt2.priority ≤ rt.priority) ∧
    (matchReq (mkTable [c1R1]) "/api/users" "GET" "example.com" [] = none →
      ∀ rt2 ∈ (mkTable [c1R1]).routes,
        rt2.matches "/api/users" "GET" "example.com" [] = false) :=
  c1_match_max_priority sortRoutes compileNone sortRoutes_contract
    (mkTable [c1R1]) c1R2 [c1R1, c1R2] "a" "/api/users" "GET" "example.com" []
    (List.sorted_singleton c1R1)

/-- C1 counterexample: sort.Slice promises no stability, and a
contract-conforming sort can reverse equal-priority routes.  Upserting
route a (priority 10, path /api) and then route b (priority 10, path
/api/x) publishes, under the contract-conforming antiSort, the order
[b, a]; the request GET /api/x/1 matches both, and Match returns b —
not the earlier-upserted a that the claim requires. -/
theorem c1_counterexample :
    SortContract antiSort ∧
    c1R1.priority = c1R2.priority ∧
    c1R1.matches "/api/x/1" "GET" "example.com" [] = true ∧
    c1R2.matches "/api/x/1" "GET" "example.com" [] = true ∧
    (matchReq c1Table "/api/x/1" "GET" "example.com" []).map (fun rp => rp.1.id) =
      some "b" ∧
    c1R1.id = "a" ∧ c1R2.id = "b" ∧ ("b" : String) ≠ "a" :=
  ⟨antiSort_contract, by decide, by decide, by decide, by decide, by decide,
    by decide, by decide⟩

end LongGate










